import Mathlib

/-!
Shallow embedding of the NEMU debugger expression evaluator
(`src/nemu/src/monitor/debug/expr.c`) and verification of the frozen
claims about it.

Conventions of the embedding:
* C machine integers are modelled as `Int` (token kinds, precedences,
  loop indices) and `UInt32` (expression values; arithmetic wraps as in C).
* The global `static Token tokens[32]` array is modelled as an explicit
  store `Nat → Token` threaded through the functions that mutate it.
  Slot texts are 32-byte buffers (`List Char` of length 32); `strncpy`
  with the match length copies exactly that many bytes and leaves the
  rest of the buffer unchanged, as in C.
* Fallible code returns `Option`; a fatal abort (`panic` / `assert(0)`)
  is the `fatal` constructor of `EvalResult`, tagged with which abort.
* The recursion of `eval` is bounded by an explicit fuel counter
  (`noFuel` is the out-of-budget marker; `expr` passes a budget that is
  never exhausted on the ranges it produces).
* External collaborators: `isa_reg_str2val` is a function
  `List Char → Bool → UInt32 × Bool` receiving the register name (sigil
  stripped) and the current success flag and returning the value and the
  flag it writes; `vaddr_read` is `UInt32 → Nat → UInt32`.
-/

def nul : Char := Char.ofNat 0

/-- A C character literal used as a token type code (`'+'`, `'('`, ...). -/
def tkChar (c : Char) : Int := (c.toNat : Int)

-- Token type enum from expr.c (TK_NOTYPE = 256, then successors).
def TK_NOTYPE : Int := 256
def TK_EQ : Int := 257
def TK_NUMBER : Int := 258
def TK_REGISTER : Int := 259
def TK_MINUS : Int := 260
def TK_DEREFERENCE : Int := 261
def TK_NOTEQ : Int := 262
def TK_AND : Int := 263
def TK_OR : Int := 264

-- Operator precedence levels from expr.c.
def OP_LV0 : Int := 0
def OP_LV1 : Int := 10
def OP_LV2_1 : Int := 21
def OP_LV2_2 : Int := 22
def OP_LV3 : Int := 30
def OP_LV4 : Int := 40
def OP_LV7 : Int := 70
def OP_LV11 : Int := 110
def OP_LV12 : Int := 120

/-- Modelled from the spec: the `Token` struct is declared in
`monitor/expr.h`, which is not under `src/`; per the spec's data model a
token is a kind, a binding level and a bounded text buffer.  The buffer
bound is taken as 32 bytes; every claim below involves texts far shorter
than any plausible bound, so its exact value is irrelevant. -/
structure Token where
  type : Int
  precedence : Int
  str : List Char
deriving DecidableEq

/-- The zero-initialised token slot (C static initialisation `{}`). -/
def zeroToken : Token := ⟨0, 0, List.replicate 32 nul⟩

/-- The token store at program start: every slot zero-initialised. -/
def zeroStore : Nat → Token := fun _ => zeroToken

/-- Write one slot of the token store. -/
def setTok (st : Nat → Token) (i : Nat) (t : Token) : Nat → Token :=
  fun j => if j = i then t else st j

/-- Length of the maximal prefix of `s` whose characters satisfy `pr`. -/
def runLen (pr : Char → Bool) : List Char → Nat
  | [] => 0
  | c :: cs => if pr c then runLen pr cs + 1 else 0

-- Anchored longest-match lengths for each regex of the rule table
-- (`regexec` + `pmatch.rm_so == 0` gives the longest match starting at
-- the cursor, or no match).

/-- Rule `" +"`. -/
def matchSpaces (s : List Char) : Option Nat :=
  let n := runLen (fun c => c = ' ') s
  if n = 0 then none else some n

/-- A single-character literal rule (`"\\+"`, `"\\-"`, ...). -/
def matchChar (c : Char) (s : List Char) : Option Nat :=
  match s with
  | [] => none
  | d :: _ => if d = c then some 1 else none

/-- A two-character literal rule (`"=="`, `"!="`, `"&&"`, `"\\|\\|"`). -/
def matchTwo (c₁ c₂ : Char) (s : List Char) : Option Nat :=
  match s with
  | d₁ :: d₂ :: _ => if d₁ = c₁ ∧ d₂ = c₂ then some 2 else none
  | _ => none

def isAlnumCh (c : Char) : Bool := c.isAlpha || c.isDigit

def isHexDig (c : Char) : Bool :=
  c.isDigit || ('a' ≤ c && c ≤ 'f') || ('A' ≤ c && c ≤ 'F')

/-- Rule `"\$[a-zA-Z0-9]+"`. -/
def matchRegTok (s : List Char) : Option Nat :=
  match s with
  | '$' :: rest =>
    let n := runLen isAlnumCh rest
    if n = 0 then none else some (n + 1)
  | _ => none

/-- Rule `"0[xX][0-9a-fA-F]+"`. -/
def matchHexNum (s : List Char) : Option Nat :=
  match s with
  | '0' :: x :: rest =>
    if x = 'x' ∨ x = 'X' then
      let n := runLen isHexDig rest
      if n = 0 then none else some (n + 2)
    else none
  | _ => none

/-- Rule `"0|[1-9][0-9]*"` (POSIX leftmost-longest at the anchor:
a leading `'0'` matches only the first alternative, length 1). -/
def matchDecNum (s : List Char) : Option Nat :=
  match s with
  | [] => none
  | c :: rest =>
    if c = '0' then some 1
    else if '1' ≤ c ∧ c ≤ '9' then some (1 + runLen Char.isDigit rest)
    else none

/-- The rule table of expr.c, in source order. -/
def rules : List ((List Char → Option Nat) × Int) :=
  [ (matchSpaces, TK_NOTYPE)
  , (matchChar '+', tkChar '+')
  , (matchChar '-', tkChar '-')
  , (matchChar '*', tkChar '*')
  , (matchChar '/', tkChar '/')
  , (matchChar '(', tkChar '(')
  , (matchChar ')', tkChar ')')
  , (matchRegTok, TK_REGISTER)
  , (matchHexNum, TK_NUMBER)
  , (matchDecNum, TK_NUMBER)
  , (matchTwo '!' '=', TK_NOTEQ)
  , (matchTwo '&' '&', TK_AND)
  , (matchTwo '|' '|', TK_OR)
  , (matchTwo '=' '=', TK_EQ) ]

/-- Try the rules in order; return the first rule's token type and match
length (the `for (i = 0; i < NR_REGEX; i ++)` loop of `make_token`). -/
def firstMatch : List ((List Char → Option Nat) × Int) → List Char → Option (Int × Nat)
  | [], _ => none
  | (m, k) :: rs, s =>
    match m s with
    | some n => some (k, n)
    | none => firstMatch rs s

/-- `strncpy(dst, src, n)` into a 32-byte buffer where `src` holds at
least `n` characters: exactly `n` bytes are copied, the rest of the
buffer is left unchanged, and no terminator is written. -/
def writeStr (old src : List Char) (n : Nat) : List Char :=
  (src.take n ++ old.drop n).take 32

/-- The `switch (rules[i].token_type)` of `make_token`, recording one
token.  `txt` is the input suffix at the cursor, `len` the match length.
The default branch is `assert(0)` in C; it is unreachable because every
token type in the rule table is handled, so it is modelled as a no-op. -/
def recordToken (st : Nat → Token) (nr : Nat) (kind : Int) (txt : List Char) (len : Nat) :
    (Nat → Token) × Nat :=
  if kind = TK_NOTYPE then (st, nr)
  else if kind = tkChar '+' ∨ kind = tkChar '-' then
    (setTok st nr { st nr with type := kind, precedence := OP_LV4 }, nr + 1)
  else if kind = tkChar '*' ∨ kind = tkChar '/' then
    (setTok st nr { st nr with type := kind, precedence := OP_LV3 }, nr + 1)
  else if kind = tkChar '(' ∨ kind = tkChar ')' then
    (setTok st nr { st nr with type := kind, precedence := OP_LV1 }, nr + 1)
  else if kind = TK_NUMBER then
    (setTok st nr { st nr with type := kind, precedence := OP_LV0, str := writeStr (st nr).str txt len }, nr + 1)
  else if kind = TK_REGISTER then
    (setTok st nr { st nr with type := kind, precedence := OP_LV0, str := writeStr (st nr).str txt len }, nr + 1)
  else if kind = TK_EQ ∨ kind = TK_NOTEQ then
    (setTok st nr { st nr with type := kind, precedence := OP_LV7 }, nr + 1)
  else if kind = TK_AND then
    (setTok st nr { st nr with type := kind, precedence := OP_LV11 }, nr + 1)
  else if kind = TK_OR then
    (setTok st nr { st nr with type := kind, precedence := OP_LV12 }, nr + 1)
  else (st, nr)

/-- The scanning loop of `make_token`.  The result's first component is
`some pos` when no rule matched at cursor position `pos` (`make_token`
prints the offending position and remaining text and returns false), and
`none` on full consumption.  The counter bounds the number of loop
iterations; since every rule match consumes at least one character,
`e.length + 1` iterations always reach the natural end. -/
def lexGo (e : List Char) : Nat → Nat → (Nat → Token) → Nat →
    Option Nat × (Nat → Token) × Nat
  | 0, _, st, nr => (none, st, nr)
  | fuel + 1, pos, st, nr =>
    if e.getD pos nul = nul then (none, st, nr)
    else
      match firstMatch rules (e.drop pos) with
      | none => (some pos, st, nr)
      | some (kind, len) =>
        let r := recordToken st nr kind (e.drop pos) len
        lexGo e fuel (pos + len) r.1 r.2

/-- `make_token(e)`: resets `nr_token` to 0 and scans the whole input. -/
def make_token (e : List Char) (st : Nat → Token) : Option Nat × (Nat → Token) × Nat :=
  lexGo e (e.length + 1) 0 st 0

/-- `check_unary` of expr.c: token types that put a following `*` / `-`
in unary context. -/
def check_unary (t : Int) : Bool :=
  t = tkChar '(' || t = tkChar '+' || t = tkChar '-' || t = tkChar '*' ||
  t = tkChar '/' || t = TK_MINUS || t = TK_DEREFERENCE

/-- One iteration of the reclassification loop in `expr` (the two `if`s
for index `i`). -/
def disambStep (st : Nat → Token) (i : Nat) : Nat → Token :=
  let st1 :=
    if (st i).type = tkChar '*' ∧ (i = 0 ∨ check_unary (st (i - 1)).type) then
      setTok st i { st i with type := TK_DEREFERENCE, precedence := OP_LV2_2 }
    else st
  if (st1 i).type = tkChar '-' ∧ (i = 0 ∨ check_unary (st1 (i - 1)).type) then
    setTok st1 i { st1 i with type := TK_MINUS, precedence := OP_LV2_1 }
  else st1

/-- The whole in-place reclassification pass (`for i in [0, nr_token)`). -/
def disamb (st : Nat → Token) (nr : Nat) : Nat → Token :=
  (List.range nr).foldl disambStep st

inductive CPRes
  | wrapped
  | badExpr
  | notSurround
deriving DecidableEq

/-- Contribution of one token type to the parenthesis counter. -/
def parenDelta (t : Int) : Int :=
  if t = tkChar '(' then 1 else if t = tkChar ')' then -1 else 0

/-- The counting loop of `check_parentheses`, processing `n` tokens
starting at index `i` with running counter `cnt`; `none` is the early
`return false` on a negative counter. -/
def cpGo (ti : Nat → Token) : Nat → Int → Int → Option Int
  | 0, _, cnt => some cnt
  | n + 1, i, cnt =>
    let cnt' := cnt + parenDelta (ti i.toNat).type
    if cnt' < 0 then none else cpGo ti n (i + 1) cnt'

/-- Run the counting loop over the whole range `[p, q]`. -/
def cpRun (ti : Nat → Token) (p q : Int) : Option Int :=
  cpGo ti (q + 1 - p).toNat p 0

/-- `check_parentheses(p, q, &error)`: `wrapped` is `return true`,
`badExpr` / `notSurround` are `return false` with the respective error
code written through `error`. -/
def check_parentheses (ti : Nat → Token) (p q : Int) : CPRes :=
  if q ≤ p then .badExpr
  else
    match cpRun ti p q with
    | none => .badExpr
    | some c =>
      if c ≠ 0 then .badExpr
      else if (ti p.toNat).type = tkChar '(' ∧ (ti q.toNat).type = tkChar ')' then .wrapped
      else .notSurround

/-- The dominant-operator scan of `eval`, processing `n` tokens starting
at index `i`: `cur` is the parenthesis depth, `maxP` the best precedence
so far (initially -1), `op` the chosen index (initially 0). -/
def scanGo (ti : Nat → Token) : Nat → Int → Int → Int → Int → Int
  | 0, _, _, _, op => op
  | n + 1, i, cur, maxP, op =>
    let cur' := cur + parenDelta (ti i.toNat).type
    if cur' = 0 ∧ maxP ≤ (ti i.toNat).precedence then
      scanGo ti n (i + 1) cur' (ti i.toNat).precedence i
    else
      scanGo ti n (i + 1) cur' maxP op

/-- The dominant-operator position for range `[p, q]`. -/
def scanOp (ti : Nat → Token) (p q : Int) : Int :=
  scanGo ti (q + 1 - p).toNat p 0 (-1) 0

def isWs (c : Char) : Bool := c = ' ' || c = '\t' || c = '\n' || c = '\r'

/-- Optional sign at the head of a scanf integer field. -/
def splitSign (s : List Char) : Bool × List Char :=
  if s.getD 0 nul = '-' then (true, s.drop 1)
  else if s.getD 0 nul = '+' then (false, s.drop 1)
  else (false, s)

def hexVal (c : Char) : Nat :=
  if c.isDigit then c.toNat - 48 else if 'a' ≤ c then c.toNat - 87 else c.toNat - 55

def digitsVal (base : Nat) (ds : List Char) : Nat :=
  ds.foldl (fun a c => a * base + hexVal c) 0

/-- `sscanf(s, "%d", &val)` into a 32-bit object: optional whitespace
and sign, then a decimal digit run; no digits is a matching failure
(`ret == 0`). -/
def sscanfDec (s0 : List Char) : Option UInt32 :=
  let r := splitSign (s0.dropWhile isWs)
  let ds := r.2.takeWhile Char.isDigit
  if ds = [] then none
  else some (if r.1 then 0 - UInt32.ofNat (digitsVal 10 ds)
             else UInt32.ofNat (digitsVal 10 ds))

/-- `sscanf(s, "%x", &val)`: optional whitespace and sign, optional
`0x`/`0X` prefix, then a hex digit run; a `0x` prefix not followed by a
hex digit, or no digits at all, is a matching failure (`ret == 0`). -/
def sscanfHex (s0 : List Char) : Option UInt32 :=
  let r := splitSign (s0.dropWhile isWs)
  if r.2.getD 0 nul = '0' ∧ (r.2.getD 1 nul = 'x' ∨ r.2.getD 1 nul = 'X') then
    if isHexDig ((r.2.drop 2).getD 0 nul) then
      some (if r.1 then 0 - UInt32.ofNat (digitsVal 16 ((r.2.drop 2).takeWhile isHexDig))
            else UInt32.ofNat (digitsVal 16 ((r.2.drop 2).takeWhile isHexDig)))
    else none
  else
    if r.2.takeWhile isHexDig = [] then none
    else some (if r.1 then 0 - UInt32.ofNat (digitsVal 16 (r.2.takeWhile isHexDig))
               else UInt32.ofNat (digitsVal 16 (r.2.takeWhile isHexDig)))

/-- The C string stored in a token buffer: bytes up to the first NUL. -/
def cString (s : List Char) : List Char := s.takeWhile (fun c => c ≠ nul)

inductive Fatal
  | divZero
  | assertFail
deriving DecidableEq

inductive EvalResult
  | ok (val : UInt32) (success : Bool)
  | fatal (r : Fatal)
  | noFuel
deriving DecidableEq

/-- The `switch (tokens[op].type)` combine step of `eval`.  `divZero` is
the `panic("Division by zero!!")`, `assertFail` the `assert(0)` default
branch; `mem` is `vaddr_read`, always called with width 4. -/
def combineOp (mem : UInt32 → Nat → UInt32) (t : Int) (v1 v2 : UInt32) :
    Except Fatal UInt32 :=
  if t = tkChar '+' then .ok (v1 + v2)
  else if t = tkChar '-' then .ok (v1 - v2)
  else if t = tkChar '*' then .ok (v1 * v2)
  else if t = tkChar '/' then
    if v2 = 0 then .error .divZero else .ok (v1 / v2)
  else if t = TK_DEREFERENCE then .ok (mem v2 4)
  else if t = TK_MINUS then .ok (0 - v2)
  else if t = TK_EQ then .ok (if v1 = v2 then 1 else 0)
  else if t = TK_NOTEQ then .ok (if v1 = v2 then 0 else 1)
  else if t = TK_AND then .ok (if v1 ≠ 0 ∧ v2 ≠ 0 then 1 else 0)
  else if t = TK_OR then .ok (if v1 ≠ 0 ∨ v2 ≠ 0 then 1 else 0)
  else .error .assertFail

/-- `eval(p, q, success)` of expr.c.  The success flag is threaded as a
value: it enters as `succ` and the flag state at return time is carried
in `EvalResult.ok`.  In the two places where C returns an uninitialised
`val` (a singleton that is neither number nor register, and a literal
whose parse fails), the indeterminate value is modelled as 0; no claim
depends on it.  `reg` is `isa_reg_str2val` (receiving the name with the
sigil stripped and the current flag, returning value and written flag). -/
def eval (reg : List Char → Bool → UInt32 × Bool) (mem : UInt32 → Nat → UInt32)
    (ti : Nat → Token) : Nat → Int → Int → Bool → EvalResult
  | 0, _, _, _ => .noFuel
  | fuel + 1, p, q, succ =>
    if q < p then .ok 0 false
    else if p = q then
      let t := ti p.toNat
      if t.type = TK_NUMBER then
        let s := cString t.str
        let isHex := 2 < s.length ∧ (s.getD 1 nul = 'x' ∨ s.getD 1 nul = 'X')
        match (if isHex then sscanfHex s else sscanfDec s) with
        | none => .ok 0 false
        | some v => .ok v succ
      else if t.type = TK_REGISTER then
        let r := reg (cString (t.str.drop 1)) succ
        .ok r.1 r.2
      else .ok 0 succ
    else
      match check_parentheses ti p q with
      | .wrapped => eval reg mem ti fuel (p + 1) (q - 1) succ
      | .badExpr => .ok 0 false
      | .notSurround =>
        let op := scanOp ti p q
        let tk := (ti op.toNat).type
        let r1 :=
          if tk = TK_DEREFERENCE ∨ tk = TK_MINUS then EvalResult.ok 0 succ
          else eval reg mem ti fuel p (op - 1) succ
        match r1 with
        | .ok v1 s1 =>
          (match eval reg mem ti fuel (op + 1) q s1 with
           | .ok v2 s2 =>
             (match combineOp mem tk v1 v2 with
              | .ok v => .ok v s2
              | .error r => .fatal r)
           | r2 => r2)
        | r1x => r1x

/-- `expr(e, success)`: tokenize, reclassify unary operators, evaluate
`[0, nr_token - 1]`.  Also returns the token store left behind by the
call (the C array is global and persists).  The fuel `nr + 2` exceeds the
maximal recursion depth of `eval` on any range the pipeline produces. -/
def expr (reg : List Char → Bool → UInt32 × Bool) (mem : UInt32 → Nat → UInt32)
    (e : List Char) (st0 : Nat → Token) (succ : Bool) :
    EvalResult × (Nat → Token) :=
  match make_token e st0 with
  | (some _, st1, _) => (.ok 0 false, st1)
  | (none, st1, nr) =>
    let st2 := disamb st1 nr
    (eval reg mem st2 (nr + 2) 0 ((nr : Int) - 1) succ, st2)

/-! ## Specification-side vocabulary -/

/-- The integer interval `[p, q]` as a list. -/
def intRange (p q : Int) : List Int :=
  (List.range (q + 1 - p).toNat).map (fun k : Nat => p + (k : Int))

/-- Parenthesis depth after processing tokens `p..i` (0 when `i < p`),
defined by summing `k` deltas starting at `p`. -/
def depthGo (ti : Nat → Token) (p : Int) : Nat → Int
  | 0 => 0
  | k + 1 => depthGo ti p k + parenDelta (ti (p + k).toNat).type

def depthAfter (ti : Nat → Token) (p i : Int) : Int :=
  depthGo ti p (i + 1 - p).toNat

/-- The range `[p, q]` is balanced: the running depth never goes
negative and is zero at the end. -/
def balancedRange (ti : Nat → Token) (p q : Int) : Prop :=
  (∀ j ∈ intRange p q, 0 ≤ depthAfter ti p j) ∧ depthAfter ti p q = 0

instance (ti : Nat → Token) (p q : Int) : Decidable (balancedRange ti p q) := by
  unfold balancedRange
  exact inferInstance

/-- As the spec words it: the range is nonempty, balanced, framed by
`(` ... `)`, and the opening parenthesis's matching close is exactly the
last token (equivalently, the depth stays positive strictly inside). -/
def specFullyWrapped (ti : Nat → Token) (p q : Int) : Prop :=
  p ≤ q ∧ balancedRange ti p q ∧
  (ti p.toNat).type = tkChar '(' ∧ (ti q.toNat).type = tkChar ')' ∧
  ∀ j ∈ intRange p (q - 1), 0 < depthAfter ti p j

instance (ti : Nat → Token) (p q : Int) : Decidable (specFullyWrapped ti p q) := by
  unfold specFullyWrapped
  exact inferInstance

/-- As the spec words it: the literal has a `0x`/`0X` prefix and length
greater than 2. -/
def specHexCond (s : List Char) : Prop :=
  2 < s.length ∧ s.getD 0 nul = '0' ∧ (s.getD 1 nul = 'x' ∨ s.getD 1 nul = 'X')

instance (s : List Char) : Decidable (specHexCond s) := by
  unfold specHexCond
  exact inferInstance

/-! ## Concrete stores and collaborators used by witnesses -/

/-- A token text padded to the 32-byte buffer. -/
def strBuf (s : String) : List Char := (s.toList ++ List.replicate 32 nul).take 32

def mkTok (ty pr : Int) (s : String) : Token := ⟨ty, pr, strBuf s⟩

def storeOf (l : List Token) : Nat → Token := fun i => l.getD i zeroToken

/-- A trivial register collaborator (never consulted in the inputs that
use it). -/
def reg0 : List Char → Bool → UInt32 × Bool := fun _ _ => (0, true)

/-- A register collaborator that always reports failure. -/
def regFail : List Char → Bool → UInt32 × Bool := fun _ _ => (0, false)

/-- A trivial memory collaborator. -/
def mem0 : UInt32 → Nat → UInt32 := fun _ _ => 0

/-! ## Helper lemmas -/

theorem mem_intRange {p q j : Int} : j ∈ intRange p q ↔ p ≤ j ∧ j ≤ q := by
  unfold intRange
  simp only [List.mem_map, List.mem_range]
  constructor
  · rintro ⟨k, hk, hj⟩
    omega
  · rintro ⟨h1, h2⟩
    exact ⟨(j - p).toNat, by omega, by omega⟩

theorem depthAfter_of_lt {ti : Nat → Token} {p i : Int} (h : i < p) :
    depthAfter ti p i = 0 := by
  unfold depthAfter
  have hz : (i + 1 - p).toNat = 0 := by omega
  rw [hz]
  rfl

theorem depthAfter_succ {ti : Nat → Token} {p i : Int} (h : p ≤ i) :
    depthAfter ti p i = depthAfter ti p (i - 1) + parenDelta (ti i.toNat).type := by
  unfold depthAfter
  have h1 : (i + 1 - p).toNat = (i - 1 + 1 - p).toNat + 1 := by omega
  rw [h1]
  show depthGo ti p ((i - 1 + 1 - p).toNat) + parenDelta (ti (p + ((i - 1 + 1 - p).toNat : Int)).toNat).type = _
  have h2 : p + ((i - 1 + 1 - p).toNat : Int) = i := by omega
  rw [h2]

theorem cpGo_char {ti : Nat → Token} {p q : Int} :
    ∀ (n : Nat) (i : Int), p ≤ i → i ≤ q + 1 → (q + 1 - i).toNat = n → ∀ c : Int,
      (cpGo ti n i (depthAfter ti p (i - 1)) = some c ↔
        ((∀ j, i ≤ j → j ≤ q → 0 ≤ depthAfter ti p j) ∧ c = depthAfter ti p q)) := by
  intro n
  induction n with
  | zero =>
    intro i hpi hiq hn c
    have hiq1 : i = q + 1 := by omega
    subst hiq1
    simp only [cpGo, Option.some.injEq]
    constructor
    · intro h
      refine ⟨fun j h1 h2 => by omega, ?_⟩
      rw [← h]
      norm_num
    · intro ⟨_, h⟩
      rw [h]
      norm_num
  | succ n ih =>
    intro i hpi hiq hn c
    have hiq' : i ≤ q := by omega
    show (let cnt' := depthAfter ti p (i - 1) + parenDelta (ti i.toNat).type
          if cnt' < 0 then none else cpGo ti n (i + 1) cnt') = some c ↔ _
    have hstep : depthAfter ti p (i - 1) + parenDelta (ti i.toNat).type = depthAfter ti p i :=
      (depthAfter_succ hpi).symm
    simp only [hstep]
    by_cases hneg : depthAfter ti p i < 0
    · simp only [if_pos hneg]
      constructor
      · intro h
        exact absurd h (by simp)
      · intro ⟨hall, _⟩
        have := hall i (le_refl i) hiq'
        omega
    · simp only [if_neg hneg]
      have hrw : depthAfter ti p i = depthAfter ti p ((i + 1) - 1) := by norm_num
      rw [hrw]
      rw [ih (i + 1) (by omega) (by omega) (by omega) c]
      constructor
      · intro ⟨hall, hc⟩
        refine ⟨fun j h1 h2 => ?_, hc⟩
        rcases eq_or_lt_of_le h1 with h | h
        · rw [← h]
          simpa using hneg
        · exact hall j (by omega) h2
      · intro ⟨hall, hc⟩
        exact ⟨fun j h1 h2 => hall j (by omega) h2, hc⟩

theorem cpRun_iff {ti : Nat → Token} {p q : Int} (hpq : p ≤ q) (c : Int) :
    cpRun ti p q = some c ↔
      ((∀ j, p ≤ j → j ≤ q → 0 ≤ depthAfter ti p j) ∧ c = depthAfter ti p q) := by
  have h0 : depthAfter ti p (p - 1) = 0 := depthAfter_of_lt (by omega)
  have := @cpGo_char ti p q (q + 1 - p).toNat p (le_refl p) (by omega) rfl c
  rw [← this]
  unfold cpRun
  rw [h0]

theorem balancedRange_iff_cpRun {ti : Nat → Token} {p q : Int} (hpq : p ≤ q) :
    balancedRange ti p q ↔ cpRun ti p q = some 0 := by
  rw [cpRun_iff hpq 0]
  unfold balancedRange
  constructor
  · intro ⟨h1, h2⟩
    exact ⟨fun j ha hb => h1 j (mem_intRange.mpr ⟨ha, hb⟩), h2.symm⟩
  · intro ⟨h1, h2⟩
    refine ⟨fun j hj => ?_, h2.symm⟩
    obtain ⟨ha, hb⟩ := mem_intRange.mp hj
    exact h1 j ha hb

theorem check_notSurround {ti : Nat → Token} {p q : Int}
    (h : check_parentheses ti p q = .notSurround) :
    p < q ∧ cpRun ti p q = some 0 := by
  unfold check_parentheses at h
  split at h
  · exact absurd h (by simp)
  · rename_i hpq
    refine ⟨by omega, ?_⟩
    split at h
    · exact absurd h (by simp)
    · rename_i c hc
      split at h
      · exact absurd h (by simp)
      · rename_i hc0
        push_neg at hc0
        rw [hc0] at hc
        exact hc

theorem scanGo_spec {ti : Nat → Token} {p q : Int}
    (hpr : ∀ j, p ≤ j → j ≤ q → 0 ≤ (ti j.toNat).precedence) :
    ∀ (n : Nat) (i maxP op : Int), p ≤ i → i ≤ q + 1 → (q + 1 - i).toNat = n →
    ((maxP = -1 ∧ op = 0 ∧ ∀ j, p ≤ j → j < i → depthAfter ti p j ≠ 0) ∨
     (p ≤ op ∧ op < i ∧ depthAfter ti p op = 0 ∧ (ti op.toNat).precedence = maxP ∧
      (∀ j, p ≤ j → j < i → depthAfter ti p j = 0 → (ti j.toNat).precedence ≤ maxP) ∧
      (∀ j, op < j → j < i → depthAfter ti p j = 0 → (ti j.toNat).precedence < maxP))) →
    (∃ j0, p ≤ j0 ∧ j0 ≤ q ∧ depthAfter ti p j0 = 0) →
    (p ≤ scanGo ti n i (depthAfter ti p (i - 1)) maxP op ∧
     scanGo ti n i (depthAfter ti p (i - 1)) maxP op ≤ q ∧
     depthAfter ti p (scanGo ti n i (depthAfter ti p (i - 1)) maxP op) = 0 ∧
     (∀ j, p ≤ j → j ≤ q → depthAfter ti p j = 0 →
       (ti j.toNat).precedence ≤ (ti (scanGo ti n i (depthAfter ti p (i - 1)) maxP op).toNat).precedence) ∧
     (∀ j, scanGo ti n i (depthAfter ti p (i - 1)) maxP op < j → j ≤ q → depthAfter ti p j = 0 →
       (ti j.toNat).precedence < (ti (scanGo ti n i (depthAfter ti p (i - 1)) maxP op).toNat).precedence)) := by
  intro n
  induction n with
  | zero =>
    intro i maxP op hpi hiq hn hinv hex
    have hi : i = q + 1 := by omega
    subst hi
    simp only [scanGo]
    obtain ⟨j0, hj0p, hj0q, hj0d⟩ := hex
    rcases hinv with ⟨_, _, hnone⟩ | ⟨h1, h2, h3, h4, h5, h6⟩
    · exact absurd hj0d (hnone j0 hj0p (by omega))
    · refine ⟨h1, by omega, h3, ?_, ?_⟩
      · intro j hj1 hj2 hj3
        rw [h4]
        exact h5 j hj1 (by omega) hj3
      · intro j hj1 hj2 hj3
        rw [h4]
        exact h6 j hj1 (by omega) hj3
  | succ n ih =>
    intro i maxP op hpi hiq hn hinv hex
    have hiq' : i ≤ q := by omega
    have hstep : scanGo ti (n + 1) i (depthAfter ti p (i - 1)) maxP op =
        if depthAfter ti p i = 0 ∧ maxP ≤ (ti i.toNat).precedence then
          scanGo ti n (i + 1) (depthAfter ti p i) (ti i.toNat).precedence i
        else
          scanGo ti n (i + 1) (depthAfter ti p i) maxP op := by
      simp only [scanGo]
      rw [← depthAfter_succ hpi]
    have hshift : depthAfter ti p i = depthAfter ti p ((i + 1) - 1) := by norm_num
    rw [hstep]
    by_cases hcond : depthAfter ti p i = 0 ∧ maxP ≤ (ti i.toNat).precedence
    · rw [if_pos hcond]
      obtain ⟨hd0, hle⟩ := hcond
      rw [hshift]
      apply ih (i + 1) (ti i.toNat).precedence i (by omega) (by omega) (by omega) _ hex
      right
      refine ⟨hpi, by omega, hd0, rfl, ?_, ?_⟩
      · intro j hj1 hj2 hj3
        rcases lt_or_eq_of_le (show j ≤ i by omega) with hj | hj
        · rcases hinv with ⟨hm, _, hnone⟩ | ⟨_, _, _, _, h5, _⟩
          · exact absurd hj3 (hnone j hj1 hj)
          · exact le_trans (h5 j hj1 hj hj3) hle
        · rw [hj]
      · intro j hj1 hj2 hj3
        omega
    · rw [if_neg hcond]
      rw [hshift]
      apply ih (i + 1) maxP op (by omega) (by omega) (by omega) _ hex
      by_cases hd0 : depthAfter ti p i = 0
      · have hgt : (ti i.toNat).precedence < maxP := by
          rcases lt_or_le (ti i.toNat).precedence maxP with h | h
          · exact h
          · exact absurd ⟨hd0, h⟩ hcond
        rcases hinv with ⟨hm, _, _⟩ | ⟨h1, h2, h3, h4, h5, h6⟩
        · have := hpr i hpi hiq'
          omega
        · right
          refine ⟨h1, by omega, h3, h4, ?_, ?_⟩
          · intro j hj1 hj2 hj3
            rcases lt_or_eq_of_le (show j ≤ i by omega) with hj | hj
            · exact h5 j hj1 hj hj3
            · rw [hj]
              omega
          · intro j hj1 hj2 hj3
            rcases lt_or_eq_of_le (show j ≤ i by omega) with hj | hj
            · exact h6 j hj1 hj hj3
            · rw [hj]
              exact hgt
      · rcases hinv with ⟨hm, ho, hnone⟩ | ⟨h1, h2, h3, h4, h5, h6⟩
        · left
          refine ⟨hm, ho, ?_⟩
          intro j hj1 hj2
          rcases lt_or_eq_of_le (show j ≤ i by omega) with hj | hj
          · exact hnone j hj1 hj
          · rw [hj]
            exact hd0
        · right
          refine ⟨h1, by omega, h3, h4, ?_, ?_⟩
          · intro j hj1 hj2 hj3
            rcases lt_or_eq_of_le (show j ≤ i by omega) with hj | hj
            · exact h5 j hj1 hj hj3
            · rw [hj] at hj3
              exact absurd hj3 hd0
          · intro j hj1 hj2 hj3
            rcases lt_or_eq_of_le (show j ≤ i by omega) with hj | hj
            · exact h6 j hj1 hj hj3
            · rw [hj] at hj3
              exact absurd hj3 hd0

theorem scanOp_spec {ti : Nat → Token} {p q : Int} (hpq : p ≤ q)
    (hpr : ∀ j, p ≤ j → j ≤ q → 0 ≤ (ti j.toNat).precedence)
    (hq0 : depthAfter ti p q = 0) :
    p ≤ scanOp ti p q ∧ scanOp ti p q ≤ q ∧ depthAfter ti p (scanOp ti p q) = 0 ∧
    (∀ j, p ≤ j → j ≤ q → depthAfter ti p j = 0 →
      (ti j.toNat).precedence ≤ (ti (scanOp ti p q).toNat).precedence) ∧
    (∀ j, scanOp ti p q < j → j ≤ q → depthAfter ti p j = 0 →
      (ti j.toNat).precedence < (ti (scanOp ti p q).toNat).precedence) := by
  have h0 : depthAfter ti p (p - 1) = 0 := depthAfter_of_lt (by omega)
  have hmain := scanGo_spec hpr (q + 1 - p).toNat p (-1) 0 (le_refl p) (by omega) rfl
    (Or.inl ⟨rfl, rfl, fun j h1 h2 => absurd h1 (by omega)⟩)
    ⟨q, hpq, le_refl q, hq0⟩
  rw [h0] at hmain
  exact hmain

theorem eval_flag (reg : List Char → Bool → UInt32 × Bool) (mem : UInt32 → Nat → UInt32)
    (ti : Nat → Token) :
    ∀ (fuel : Nat) (p q : Int) (s : Bool) (v : UInt32) (s' : Bool),
    (∀ i : Int, p ≤ i → i ≤ q → (ti i.toNat).type ≠ TK_REGISTER) →
    (∀ i : Int, p ≤ i → i ≤ q → 0 ≤ (ti i.toNat).precedence) →
    eval reg mem ti fuel p q s = .ok v s' → s' = s ∨ s' = false := by
  intro fuel
  induction fuel with
  | zero =>
    intro p q s v s' hreg hpr h
    exact absurd h (by simp [eval])
  | succ fuel ih =>
    intro p q s v s' hreg hpr h
    simp only [eval] at h
    split at h
    · simp only [EvalResult.ok.injEq] at h
      exact Or.inr h.2.symm
    · rename_i hqp
      split at h
      · rename_i hpq
        split at h
        · split at h
          · simp only [EvalResult.ok.injEq] at h
            exact Or.inr h.2.symm
          · simp only [EvalResult.ok.injEq] at h
            exact Or.inl h.2.symm
        · rename_i hnum
          split at h
          · rename_i hregty
            exact absurd hregty (hreg p (le_refl p) (by omega))
          · simp only [EvalResult.ok.injEq] at h
            exact Or.inl h.2.symm
      · rename_i hpq
        split at h
        · rename_i hcp
          exact ih (p + 1) (q - 1) s v s'
            (fun i h1 h2 => hreg i (by omega) (by omega))
            (fun i h1 h2 => hpr i (by omega) (by omega)) h
        · simp only [EvalResult.ok.injEq] at h
          exact Or.inr h.2.symm
        · rename_i hcp
          obtain ⟨hlt, hcp0⟩ := check_notSurround hcp
          obtain ⟨_, hq0⟩ := (cpRun_iff (le_of_lt hlt) 0).mp hcp0
          obtain ⟨hop1, hop2, -, -, -⟩ := scanOp_spec (le_of_lt hlt) hpr hq0.symm
          by_cases hun : (ti (scanOp ti p q).toNat).type = TK_DEREFERENCE ∨
              (ti (scanOp ti p q).toNat).type = TK_MINUS
          · rw [if_pos hun] at h
            rcases hre2 : eval reg mem ti fuel (scanOp ti p q + 1) q s with ⟨v2, s2⟩ | r | _
            · simp only [hre2] at h
              have hright := ih (scanOp ti p q + 1) q s v2 s2
                (fun i h1 h2 => hreg i (by omega) (by omega))
                (fun i h1 h2 => hpr i (by omega) (by omega)) hre2
              rcases hco : combineOp mem (ti (scanOp ti p q).toNat).type 0 v2 with rf | vOk
              · rw [hco] at h
                simp at h
              · rw [hco] at h
                simp only [EvalResult.ok.injEq] at h
                rw [← h.2]
                exact hright
            · simp only [hre2] at h
              simp at h
            · simp only [hre2] at h
              simp at h
          · rw [if_neg hun] at h
            rcases hre1 : eval reg mem ti fuel p (scanOp ti p q - 1) s with ⟨v1, s1⟩ | r | _
            · simp only [hre1] at h
              have hleft := ih p (scanOp ti p q - 1) s v1 s1
                (fun i h1 h2 => hreg i (by omega) (by omega))
                (fun i h1 h2 => hpr i (by omega) (by omega)) hre1
              rcases hre2 : eval reg mem ti fuel (scanOp ti p q + 1) q s1 with ⟨v2, s2⟩ | r | _
              · simp only [hre2] at h
                have hright := ih (scanOp ti p q + 1) q s1 v2 s2
                  (fun i h1 h2 => hreg i (by omega) (by omega))
                  (fun i h1 h2 => hpr i (by omega) (by omega)) hre2
                rcases hco : combineOp mem (ti (scanOp ti p q).toNat).type v1 v2 with rf | vOk
                · rw [hco] at h
                  simp at h
                · rw [hco] at h
                  simp only [EvalResult.ok.injEq] at h
                  rw [← h.2]
                  rcases hright with h2 | h2
                  · rcases hleft with h1 | h1
                    · rw [h2, h1]
                      exact Or.inl rfl
                    · rw [h2, h1]
                      exact Or.inr rfl
                  · rw [h2]
                    exact Or.inr rfl
              · simp only [hre2] at h
                simp at h
              · simp only [hre2] at h
                simp at h
            · simp only [hre1] at h
              simp at h
            · simp only [hre1] at h
              simp at h

theorem disamb_succ (st : Nat → Token) (nr : Nat) :
    disamb st (nr + 1) = disambStep (disamb st nr) nr := by
  unfold disamb
  rw [List.range_succ, List.foldl_append]
  rfl

theorem disambStep_other {st : Nat → Token} {i j : Nat} (h : j ≠ i) :
    disambStep st i j = st j := by
  unfold disambStep
  split
  · split
    · simp [setTok, h]
    · simp [setTok, h]
  · split
    · simp [setTok, h]
    · rfl

theorem disamb_ge (st : Nat → Token) : ∀ (nr i : Nat), nr ≤ i → disamb st nr i = st i := by
  intro nr
  induction nr with
  | zero => intro i _; rfl
  | succ nr ih =>
    intro i h
    rw [disamb_succ, disambStep_other (by omega : i ≠ nr)]
    exact ih i (by omega)

theorem disamb_stable (st : Nat → Token) : ∀ (nr i : Nat), i < nr →
    disamb st nr i = disamb st (i + 1) i := by
  intro nr
  induction nr with
  | zero => intro i h; omega
  | succ nr ih =>
    intro i h
    rcases Nat.lt_or_ge i nr with h1 | h1
    · rw [disamb_succ, disambStep_other (by omega : i ≠ nr)]
      exact ih i h1
    · have hieq : i = nr := by omega
      subst hieq
      rfl

theorem disambStep_self (st : Nat → Token) (i : Nat) :
    disambStep st i i =
      (if (st i).type = tkChar '*' ∧ (i = 0 ∨ check_unary (st (i - 1)).type) then
        { st i with type := TK_DEREFERENCE, precedence := OP_LV2_2 }
      else if (st i).type = tkChar '-' ∧ (i = 0 ∨ check_unary (st (i - 1)).type) then
        { st i with type := TK_MINUS, precedence := OP_LV2_1 }
      else st i) := by
  simp only [disambStep]
  by_cases hc1 : (st i).type = tkChar '*' ∧ (i = 0 ∨ check_unary (st (i - 1)).type)
  · simp only [if_pos hc1]
    split
    · rename_i hcon
      obtain ⟨h1, -⟩ := hcon
      simp [setTok] at h1
      exact absurd h1 (by decide)
    · simp [setTok]
  · simp only [if_neg hc1]
    by_cases hc2 : (st i).type = tkChar '-' ∧ (i = 0 ∨ check_unary (st (i - 1)).type)
    · simp only [if_pos hc2]
      simp [setTok]
    · simp only [if_neg hc2]

theorem disamb_char (st : Nat → Token) (nr i : Nat) (h : i < nr) :
    disamb st nr i =
      (if (st i).type = tkChar '*' ∧ (i = 0 ∨ check_unary ((disamb st nr) (i - 1)).type) then
        { st i with type := TK_DEREFERENCE, precedence := OP_LV2_2 }
      else if (st i).type = tkChar '-' ∧ (i = 0 ∨ check_unary ((disamb st nr) (i - 1)).type) then
        { st i with type := TK_MINUS, precedence := OP_LV2_1 }
      else st i) := by
  rw [disamb_stable st nr i h, disamb_succ, disambStep_self,
    disamb_ge st i i (le_refl i)]
  rcases Nat.eq_zero_or_pos i with h0 | h0
  · subst h0
    simp only [eq_self_iff_true, true_or]
  · have hprev : disamb st nr (i - 1) = disamb st i (i - 1) := by
      rw [disamb_stable st nr (i - 1) (by omega), disamb_stable st i (i - 1) (by omega)]
    rw [hprev]

theorem setTok_prec (st : Nat → Token) (nr : Nat) (t : Token)
    (hst : ∀ i, i < nr → 0 ≤ (st i).precedence) (ht : 0 ≤ t.precedence) :
    ∀ i, i < nr + 1 → 0 ≤ ((setTok st nr t) i).precedence := by
  intro i hi
  unfold setTok
  by_cases hieq : i = nr
  · rw [if_pos hieq]
    exact ht
  · rw [if_neg hieq]
    exact hst i (by omega)

theorem recordToken_prec (st : Nat → Token) (nr : Nat) (kind : Int) (txt : List Char) (len : Nat)
    (hst : ∀ i, i < nr → 0 ≤ (st i).precedence) :
    ∀ i, i < (recordToken st nr kind txt len).2 →
      0 ≤ ((recordToken st nr kind txt len).1 i).precedence := by
  unfold recordToken
  split_ifs <;> first
    | exact hst
    | exact setTok_prec st nr _ hst
        (by norm_num [OP_LV0, OP_LV1, OP_LV3, OP_LV4, OP_LV7, OP_LV11, OP_LV12])

theorem lexGo_succ (e : List Char) (fuel pos : Nat) (st : Nat → Token) (nr : Nat) :
    lexGo e (fuel + 1) pos st nr =
      (if e.getD pos nul = nul then (none, st, nr)
       else
         match firstMatch rules (e.drop pos) with
         | none => (some pos, st, nr)
         | some (kind, len) =>
           lexGo e fuel (pos + len) (recordToken st nr kind (e.drop pos) len).1
             (recordToken st nr kind (e.drop pos) len).2) := rfl

theorem lexGo_prec (e : List Char) : ∀ (fuel pos : Nat) (st : Nat → Token) (nr : Nat),
    (∀ i, i < nr → 0 ≤ (st i).precedence) →
    ∀ i, i < (lexGo e fuel pos st nr).2.2 → 0 ≤ ((lexGo e fuel pos st nr).2.1 i).precedence := by
  intro fuel
  induction fuel with
  | zero =>
    intro pos st nr h i hi
    exact h i hi
  | succ fuel ih =>
    intro pos st nr h i hi
    rw [lexGo_succ] at hi ⊢
    by_cases hend : e.getD pos nul = nul
    · rw [if_pos hend] at hi ⊢
      exact h i hi
    · rw [if_neg hend] at hi ⊢
      rcases hfm : firstMatch rules (e.drop pos) with _ | ⟨kind, len⟩
      · rw [hfm] at hi
        exact h i hi
      · rw [hfm] at hi
        exact ih (pos + len) _ _ (recordToken_prec st nr kind (e.drop pos) len h) i hi

theorem make_token_prec (e : List Char) (st : Nat → Token) :
    ∀ i, i < (make_token e st).2.2 → 0 ≤ ((make_token e st).2.1 i).precedence :=
  lexGo_prec e (e.length + 1) 0 st 0 (fun i hi => absurd hi (by omega))

theorem lexGo_fail (e : List Char) : ∀ (fuel pos : Nat) (st : Nat → Token) (nr pos' : Nat),
    (lexGo e fuel pos st nr).1 = some pos' → firstMatch rules (e.drop pos') = none := by
  intro fuel
  induction fuel with
  | zero =>
    intro pos st nr pos' h
    exact absurd h (by simp [lexGo])
  | succ fuel ih =>
    intro pos st nr pos' h
    rw [lexGo_succ] at h
    by_cases hend : e.getD pos nul = nul
    · rw [if_pos hend] at h
      exact absurd h (by simp)
    · rw [if_neg hend] at h
      rcases hfm : firstMatch rules (e.drop pos) with _ | ⟨kind, len⟩
      · rw [hfm] at h
        simp only [Option.some.injEq] at h
        rw [← h]
        exact hfm
      · rw [hfm] at h
        exact ih (pos + len) _ _ pos' h

theorem firstMatch_none_iff : ∀ (rs : List ((List Char → Option Nat) × Int)) (s : List Char),
    firstMatch rs s = none ↔ ∀ r ∈ rs, r.1 s = none := by
  intro rs
  induction rs with
  | nil =>
    intro s
    simp [firstMatch]
  | cons r rs ih =>
    intro s
    obtain ⟨m, k⟩ := r
    simp only [firstMatch]
    rcases hm : m s with _ | n
    · simp only [hm]
      rw [ih]
      constructor
      · intro hall r hr
        rcases List.mem_cons.mp hr with hrr | hrr
        · rw [hrr]
          exact hm
        · exact hall r hrr
      · intro hall r hr
        exact hall r (List.mem_cons_of_mem _ hr)
    · simp only [hm]
      constructor
      · intro hcontra
        exact absurd hcontra (by simp)
      · intro hall
        have hmm : m s = none := hall (m, k) (List.mem_cons_self _ _)
        rw [hm] at hmm
        exact absurd hmm (by simp)

/-! ## Claim theorems -/

/-- Token store for the token sequence of `"(1)+(2)"`. -/
def cexWrapStore : Nat → Token := storeOf
  [ mkTok (tkChar '(') OP_LV1 "", mkTok TK_NUMBER OP_LV0 "1", mkTok (tkChar ')') OP_LV1 ""
  , mkTok (tkChar '+') OP_LV4 "", mkTok (tkChar '(') OP_LV1 "", mkTok TK_NUMBER OP_LV0 "2"
  , mkTok (tkChar ')') OP_LV1 "" ]

/-- Token store for the token sequence of `"1+2"`. -/
def plusStore : Nat → Token := storeOf
  [ mkTok TK_NUMBER OP_LV0 "1", mkTok (tkChar '+') OP_LV4 "", mkTok TK_NUMBER OP_LV0 "2" ]

/-- C1, counterexample: the token range of `"(1)+(2)"` is balanced, its
first token is `(` and its last is `)`, but the opening parenthesis's
matching close is the token at index 2, not the last token — the range
is not framed by one outer pair — yet `check_parentheses` reports it as
fully wrapped (returns true), where the claim predicts `NotWrapped`. -/
theorem c1_counterexample :
    check_parentheses cexWrapStore 0 6 = CPRes.wrapped ∧
    balancedRange cexWrapStore 0 6 ∧
    (cexWrapStore 0).type = tkChar '(' ∧ (cexWrapStore 6).type = tkChar ')' ∧
    depthAfter cexWrapStore 0 2 = 0 ∧
    ¬ specFullyWrapped cexWrapStore 0 6 := by decide

/-- C1, amended: for a balanced range, `check_parentheses` returns true
(`FullyWrapped`) exactly when the range has more than one token, its
first token is `(` and its last is `)` — whether or not that pair
actually spans the whole range; a multi-token balanced range not framed
that way is reported `NotWrapped` (`NOT_SURROUND`), and a singleton
balanced range is reported `Malformed` (`BAD_EXPR`), not `NotWrapped`. -/
theorem c1_theorem : ∀ (ti : Nat → Token) (p q : Int), p ≤ q → balancedRange ti p q →
    ((check_parentheses ti p q = CPRes.wrapped ↔
        (p < q ∧ (ti p.toNat).type = tkChar '(' ∧ (ti q.toNat).type = tkChar ')')) ∧
     (p = q → check_parentheses ti p q = CPRes.badExpr) ∧
     (p < q → ¬((ti p.toNat).type = tkChar '(' ∧ (ti q.toNat).type = tkChar ')') →
        check_parentheses ti p q = CPRes.notSurround)) := by
  intro ti p q hpq hbal
  have hcp : cpRun ti p q = some 0 := (balancedRange_iff_cpRun hpq).mp hbal
  rcases eq_or_lt_of_le hpq with heq | hlt
  · subst heq
    unfold check_parentheses
    rw [if_pos (le_refl p)]
    refine ⟨⟨fun hfalse => absurd hfalse (by simp), ?_⟩, fun _ => rfl,
      fun hcontra _ => absurd hcontra (lt_irrefl p)⟩
    rintro ⟨hlt, -⟩
    exact absurd hlt (lt_irrefl p)
  · have hred : check_parentheses ti p q =
        (if (ti p.toNat).type = tkChar '(' ∧ (ti q.toNat).type = tkChar ')' then
          CPRes.wrapped
        else CPRes.notSurround) := by
      unfold check_parentheses
      rw [if_neg (by omega : ¬ q ≤ p), hcp]
      norm_num
    rw [hred]
    by_cases hend : (ti p.toNat).type = tkChar '(' ∧ (ti q.toNat).type = tkChar ')'
    · rw [if_pos hend]
      exact ⟨⟨fun _ => ⟨hlt, hend⟩, fun _ => rfl⟩, fun heq => absurd heq (by omega),
        fun _ hc => absurd hend hc⟩
    · rw [if_neg hend]
      exact ⟨⟨fun hfalse => absurd hfalse (by simp), fun hc => absurd hc.2 hend⟩,
        fun heq => absurd heq (by omega), fun _ _ => rfl⟩

/-- C1, witness: the balanced, non-framed range of `"1+2"` is reported
`NotWrapped`. -/
theorem c1_witness : check_parentheses plusStore 0 2 = CPRes.notSurround :=
  (c1_theorem plusStore 0 2 (by decide) (by decide)).2.2 (by decide) (by decide)

/-- The operator kinds handled by the combine step's switch. -/
def handledOps : List Int :=
  [ tkChar '+', tkChar '-', tkChar '*', tkChar '/',
    TK_DEREFERENCE, TK_MINUS, TK_EQ, TK_NOTEQ, TK_AND, TK_OR ]

/-- C2, counterexample: `"1 2"` is accepted by the tokenizer (two number
tokens, the space discarded), yet evaluation reaches the unhandled-
operator `assert(0)`: the dominant scan selects the second `Number`
token, whose kind the combine switch does not handle. -/
theorem c2_counterexample :
    (make_token ("1 2".toList) zeroStore).1 = none ∧
    (expr reg0 mem0 ("1 2".toList) zeroStore true).1 = EvalResult.fatal Fatal.assertFail := by
  decide

/-- C2, amended: the combine step never hits `assert(0)` when the scan
selects a token of one of the ten handled operator kinds, but the
unhandled branch is reachable for tokenizer-accepted inputs: on `"1 2"`
the dominant scan selects a `Number` token and the process aborts. -/
theorem tkChar_plus : tkChar '+' = 43 := rfl

theorem tkChar_minus : tkChar '-' = 45 := rfl

theorem tkChar_star : tkChar '*' = 42 := rfl

theorem tkChar_slash : tkChar '/' = 47 := rfl

set_option maxHeartbeats 1000000 in
theorem c2_theorem :
    (∀ (mem : UInt32 → Nat → UInt32) (t : Int) (v1 v2 : UInt32),
        t ∈ handledOps → combineOp mem t v1 v2 ≠ Except.error Fatal.assertFail) ∧
    (make_token ("1 2".toList) zeroStore).1 = none ∧
    (expr reg0 mem0 ("1 2".toList) zeroStore true).1 = EvalResult.fatal Fatal.assertFail := by
  refine ⟨?_, by decide, by decide⟩
  intro mem t v1 v2 ht
  simp only [handledOps, List.mem_cons, List.not_mem_nil, or_false] at ht
  rcases ht with rfl | rfl | rfl | rfl | rfl | rfl | rfl | rfl | rfl | rfl <;>
    norm_num [combineOp, tkChar_plus, tkChar_minus, tkChar_star, tkChar_slash,
      TK_DEREFERENCE, TK_MINUS, TK_EQ, TK_NOTEQ, TK_AND, TK_OR] <;>
    first
    | simp
    | (split <;> simp)

/-- C2, witness: a handled operator kind does not abort. -/
theorem c2_witness : combineOp mem0 (tkChar '+') 1 2 ≠ Except.error Fatal.assertFail :=
  c2_theorem.1 mem0 (tkChar '+') 1 2 (by decide)

/-- Register collaborator for C3: register `a` fails, any other
register resolves to 7 with success. -/
def regC3 : List Char → Bool → UInt32 × Bool :=
  fun n _ => if n = "a".toList then (0, false) else (7, true)

/-- C3: evaluating `"$a+$b"` where the lookup of `a` fails and the later
lookup of `b` succeeds yields overall `(7, success = true)` — the right
operand's successful register lookup overwrites the left operand's
failure, so a failure in one operand does NOT make the overall result a
failure.  The second conjunct shows the left operand alone does fail. -/
theorem c3_theorem :
    (expr regC3 mem0 ("$a+$b".toList) zeroStore true).1 = EvalResult.ok 7 true ∧
    eval regC3 mem0 ((expr regC3 mem0 ("$a+$b".toList) zeroStore true).2) 1 0 0 true =
      EvalResult.ok 0 false := by
  decide

/-- C4: the dominant-operator scan returns a position in the range at
parenthesis depth zero carrying the maximal binding level among all
depth-zero positions, and it is the rightmost such maximum (every
depth-zero position strictly to its right binds strictly tighter); and
`evaluate("1-2-3")` returns `(-4 as u32, true)`, exhibiting
left-associativity. -/
theorem c4_theorem :
    (∀ (ti : Nat → Token) (p q : Int), p ≤ q →
      (∀ j, p ≤ j → j ≤ q → 0 ≤ (ti j.toNat).precedence) →
      depthAfter ti p q = 0 →
      (p ≤ scanOp ti p q ∧ scanOp ti p q ≤ q ∧ depthAfter ti p (scanOp ti p q) = 0 ∧
       (∀ j, p ≤ j → j ≤ q → depthAfter ti p j = 0 →
         (ti j.toNat).precedence ≤ (ti (scanOp ti p q).toNat).precedence) ∧
       (∀ j, scanOp ti p q < j → j ≤ q → depthAfter ti p j = 0 →
         (ti j.toNat).precedence < (ti (scanOp ti p q).toNat).precedence))) ∧
    (expr reg0 mem0 ("1-2-3".toList) zeroStore true).1 = EvalResult.ok 0xFFFFFFFC true :=
  ⟨fun ti p q hpq hpr hq0 => scanOp_spec hpq hpr hq0, by decide⟩

/-- Every slot of a store built from a list of tokens with nonnegative
binding levels has nonnegative binding level. -/
theorem storeOf_prec_nonneg (l : List Token) (h : ∀ t ∈ l, 0 ≤ t.precedence) :
    ∀ n : Nat, 0 ≤ (storeOf l n).precedence := by
  intro n
  unfold storeOf
  by_cases hn : n < l.length
  · rw [List.getD_eq_getElem l zeroToken hn]
    exact h _ (List.getElem_mem hn)
  · rw [List.getD_eq_default l zeroToken (by omega)]
    decide

/-- Token store for the token sequence of `"1-2-3"` (post
disambiguation: both minus signs are binary). -/
def minusStore : Nat → Token := storeOf
  [ mkTok TK_NUMBER OP_LV0 "1", mkTok (tkChar '-') OP_LV4 "", mkTok TK_NUMBER OP_LV0 "2"
  , mkTok (tkChar '-') OP_LV4 "", mkTok TK_NUMBER OP_LV0 "3" ]

/-- C4, witness: on the tokens of `"1-2-3"` the scan picks index 3, the
rightmost binary minus. -/
theorem c4_witness :
    ((0 : Int) ≤ scanOp minusStore 0 4 ∧ scanOp minusStore 0 4 ≤ 4 ∧
      depthAfter minusStore 0 (scanOp minusStore 0 4) = 0) ∧
    scanOp minusStore 0 4 = 3 := by
  have h := c4_theorem.1 minusStore 0 4 (by decide)
    (fun j _ _ => storeOf_prec_nonneg _ (by decide) j.toNat) (by decide)
  exact ⟨⟨h.1, h.2.1, h.2.2.1⟩, by decide⟩

/-- A store whose only token is a Number token with non-numeric text
(exercising the literal-parse-failure branch of `eval`). -/
def badNumStore : Nat → Token := storeOf [mkTok TK_NUMBER OP_LV0 "zz"]

/-- C5: division by a zero right operand aborts the process
(`panic("Division by zero!!")`) — the result is `fatal`, not a value
with a lowered success flag — while the four user-triggered error paths
are recoverable, returning through the success flag: a lexical failure
(`"1 @"`), a structural failure (`"(1+2"`), a register-resolution
failure (`"$zz"` with a failing collaborator), and a literal-parse
failure (a Number token with text `"zz"`) all return `ok` with
`success = false` and do not abort. -/
theorem c5_theorem :
    (∀ (mem : UInt32 → Nat → UInt32) (v1 : UInt32),
        combineOp mem (tkChar '/') v1 0 = Except.error Fatal.divZero) ∧
    (expr reg0 mem0 ("1/0".toList) zeroStore true).1 = EvalResult.fatal Fatal.divZero ∧
    (expr reg0 mem0 ("1 @".toList) zeroStore true).1 = EvalResult.ok 0 false ∧
    (expr reg0 mem0 ("(1+2".toList) zeroStore true).1 = EvalResult.ok 0 false ∧
    (expr regFail mem0 ("$zz".toList) zeroStore true).1 = EvalResult.ok 0 false ∧
    eval reg0 mem0 badNumStore 1 0 0 true = EvalResult.ok 0 false := by
  refine ⟨?_, by decide, by decide, by decide, by decide, by decide⟩
  intro mem v1
  unfold combineOp
  rw [if_neg (by decide), if_neg (by decide), if_neg (by decide), if_pos rfl, if_pos rfl]

/-- C7: the token store is global and token texts are written without a
terminator, so tokens do survive across calls: evaluating `"0"` right
after `"0xAB"` returns 171 (the stale `xAB` bytes make the literal
parse as hex `0xAB`), while evaluating `"0"` from the pristine store
returns 0 — the same input yields different results depending on the
previous call, falsifying freshness per call. -/
theorem c7_theorem :
    (expr reg0 mem0 ("0".toList) ((expr reg0 mem0 ("0xAB".toList) zeroStore true).2) true).1 =
      EvalResult.ok 171 true ∧
    (expr reg0 mem0 ("0".toList) zeroStore true).1 = EvalResult.ok 0 true := by
  decide

/-- C6: the reclassification pass is characterised pointwise: a token at
`i < nr_token` whose kind is `*` with `i = 0` or a predecessor (in its
already-reclassified form) in the unary-context set becomes
`Dereference` with binding level 22; a `-` in the same context becomes
`UnaryMinus` with binding level 21; every other token — and every index
at or beyond `nr_token` — is left unchanged, so the pass never touches
tokens already visited. -/
theorem c6_theorem : ∀ (st : Nat → Token) (nr i : Nat),
    (i < nr →
      disamb st nr i =
        (if (st i).type = tkChar '*' ∧ (i = 0 ∨ check_unary ((disamb st nr) (i - 1)).type) then
          { st i with type := TK_DEREFERENCE, precedence := OP_LV2_2 }
        else if (st i).type = tkChar '-' ∧ (i = 0 ∨ check_unary ((disamb st nr) (i - 1)).type) then
          { st i with type := TK_MINUS, precedence := OP_LV2_1 }
        else st i)) ∧
    (nr ≤ i → disamb st nr i = st i) :=
  fun st nr i => ⟨disamb_char st nr i, disamb_ge st nr i⟩

/-- Token store for the token sequence of `"--5"` before
disambiguation. -/
def ddStore : Nat → Token := storeOf
  [ mkTok (tkChar '-') OP_LV4 "", mkTok (tkChar '-') OP_LV4 "", mkTok TK_NUMBER OP_LV0 "5" ]

/-- C6, witness: in `"--5"` the second `-` follows a token that was
itself just reclassified to `UnaryMinus` (which is in the unary-context
set), so it also becomes `UnaryMinus` with level 21. -/
theorem c6_witness :
    disamb ddStore 3 1 = { ddStore 1 with type := TK_MINUS, precedence := OP_LV2_1 } := by
  rw [(c6_theorem ddStore 3 1).1 (by norm_num)]
  decide

/-- C9: whenever the tokenizer stops because no lexical rule matches
anchored at the cursor, the reported position indeed has no matching
rule (every rule's matcher returns none on the remaining text
`e.drop pos`), and the failure propagates through `expr` as a normal
return of `(0, success = false)` — no abort, and evaluation is never
entered (the result is produced directly from the tokenizer's
output). -/
theorem c9_theorem : ∀ (reg : List Char → Bool → UInt32 × Bool) (mem : UInt32 → Nat → UInt32)
    (e : List Char) (st0 : Nat → Token) (succ : Bool) (pos : Nat) (st' : Nat → Token) (n' : Nat),
    make_token e st0 = (some pos, st', n') →
    ((∀ r ∈ rules, r.1 (e.drop pos) = none) ∧
     expr reg mem e st0 succ = (EvalResult.ok 0 false, st')) := by
  intro reg mem e st0 succ pos st' n' h
  constructor
  · have hfm : firstMatch rules (e.drop pos) = none := by
      apply lexGo_fail e (e.length + 1) 0 st0 0 pos
      show (make_token e st0).1 = some pos
      rw [h]
    exact (firstMatch_none_iff rules (e.drop pos)).mp hfm
  · unfold expr
    rw [h]

/-- C9, witness: `"1 @"` gets stuck at position 2 (`@` matches no
rule); no rule matches there and `expr` returns `(0, false)`. -/
theorem c9_witness :
    (∀ r ∈ rules, r.1 (("1 @".toList).drop 2) = none) ∧
    (expr reg0 mem0 ("1 @".toList) zeroStore true).1 = EvalResult.ok 0 false := by
  have h := c9_theorem reg0 mem0 ("1 @".toList) zeroStore true 2
    ((make_token ("1 @".toList) zeroStore).2.1) ((make_token ("1 @".toList) zeroStore).2.2) rfl
  exact ⟨h.1, by rw [h.2]⟩

def decDigitChars : List Char := ['0', '1', '2', '3', '4', '5', '6', '7', '8', '9']

theorem splitSign_no_sign {s : List Char} (h1 : s.getD 0 nul ≠ '-') (h2 : s.getD 0 nul ≠ '+') :
    splitSign s = (false, s) := by
  unfold splitSign
  rw [if_neg h1, if_neg h2]

/-- On a text `c :: d :: t` where `c` is a digit and `d` is neither a
decimal nor a hex digit, `%x` and `%d` both parse exactly the single
digit `c` (in particular `"9x.."` parses to 9 under either base). -/
theorem scanf_agree (c d : Char) (t : List Char)
    (hws : isWs c = false) (hm : c ≠ '-') (hp : c ≠ '+')
    (hdg : c.isDigit = true) (hhx : isHexDig c = true) (h0 : c ≠ '0')
    (hd1 : d.isDigit = false) (hd2 : isHexDig d = false) :
    sscanfHex (c :: d :: t) = some (UInt32.ofNat (hexVal c)) ∧
    sscanfDec (c :: d :: t) = some (UInt32.ofNat (hexVal c)) := by
  have hdrop : (c :: d :: t).dropWhile isWs = c :: d :: t := by
    rw [List.dropWhile_cons, hws]
    simp
  have hsplit : splitSign (c :: d :: t) = (false, c :: d :: t) :=
    splitSign_no_sign (by simpa using hm) (by simpa using hp)
  have htw : (c :: d :: t).takeWhile Char.isDigit = [c] := by
    simp [List.takeWhile_cons, hdg, hd1]
  have htwx : (c :: d :: t).takeWhile isHexDig = [c] := by
    simp [List.takeWhile_cons, hhx, hd2]
  constructor
  · simp only [sscanfHex]
    rw [hdrop, hsplit]
    simp [h0, htwx, digitsVal]
  · simp only [sscanfDec]
    rw [hdrop, hsplit]
    simp [htw, digitsVal]

/-- The base chosen by the code (`strlen > 2 && str[1] in {x, X}`)
yields the same parse as the base the spec describes (`0x`/`0X` prefix
and length > 2), for any text starting with a decimal digit. -/
theorem scanf_cond_agree (s : List Char) (hd : s.getD 0 nul ∈ decDigitChars) :
    (if 2 < s.length ∧ (s.getD 1 nul = 'x' ∨ s.getD 1 nul = 'X') then sscanfHex s
     else sscanfDec s) =
    (if specHexCond s then sscanfHex s else sscanfDec s) := by
  by_cases hspec : specHexCond s
  · rw [if_pos hspec, if_pos ⟨hspec.1, hspec.2.2⟩]
  · by_cases hcode : 2 < s.length ∧ (s.getD 1 nul = 'x' ∨ s.getD 1 nul = 'X')
    · rw [if_pos hcode, if_neg hspec]
      rcases s with _ | ⟨c, s1⟩
      · simp at hcode
      rcases s1 with _ | ⟨d, t⟩
      · simp at hcode
      have hc0 : c ≠ '0' := by
        intro hceq
        exact hspec ⟨hcode.1, by simpa using hceq, hcode.2⟩
      have hdx : d = 'x' ∨ d = 'X' := by simpa using hcode.2
      have hcd : c ∈ decDigitChars := by simpa using hd
      rcases hdx with rfl | rfl <;>
        fin_cases hcd <;>
        first
        | exact absurd rfl hc0
        | exact
            ((scanf_agree _ _ t (by decide) (by decide) (by decide) (by decide) (by decide)
                (by decide) (by decide) (by decide)).1.trans
              ((scanf_agree _ _ t (by decide) (by decide) (by decide) (by decide) (by decide)
                (by decide) (by decide) (by decide)).2.symm))
    · rw [if_neg hcode, if_neg hspec]

/-- C8: for a singleton `Number` token (whose text, as every
tokenizer-produced number literal, starts with a decimal digit), the
evaluator parses the text as hexadecimal exactly when it has a
`0x`/`0X` prefix and length greater than 2, and as unsigned decimal
otherwise; a parse failure returns through the success flag set to
false. -/
theorem c8_theorem : ∀ (reg : List Char → Bool → UInt32 × Bool) (mem : UInt32 → Nat → UInt32)
    (ti : Nat → Token) (p : Int) (succ : Bool) (fuel : Nat),
    (ti p.toNat).type = TK_NUMBER →
    (cString (ti p.toNat).str).getD 0 nul ∈ decDigitChars →
    eval reg mem ti (fuel + 1) p p succ =
      (match (if specHexCond (cString (ti p.toNat).str)
              then sscanfHex (cString (ti p.toNat).str)
              else sscanfDec (cString (ti p.toNat).str)) with
       | none => EvalResult.ok 0 false
       | some v => EvalResult.ok v succ) := by
  intro reg mem ti p succ fuel hty hd
  simp only [eval, lt_irrefl, if_false, if_true]
  rw [if_pos hty, scanf_cond_agree _ hd]

/-- Token store holding the single Number token `"0x10"`. -/
def hexStore : Nat → Token := storeOf [mkTok TK_NUMBER OP_LV0 "0x10"]

/-- C8, witness: the literal `"0x10"` is parsed as hexadecimal, giving
16 with the flag untouched. -/
theorem c8_witness : eval reg0 mem0 hexStore (0 + 1) 0 0 true = EvalResult.ok 16 true :=
  (c8_theorem reg0 mem0 hexStore 0 true 0 (by decide) (by decide)).trans (by decide)

/-- C10: neither `eval` nor `expr` ever writes `true` into the success
flag.  For `eval`, on any range containing no `Register` token (the
register collaborator being the only writer of `true`), a normal return
carries a flag that is either the caller's incoming flag or `false`.
The same holds end-to-end for `expr` whenever the token sequence the
tokenizer produced contains no register token. -/
theorem c10_theorem :
    (∀ (reg : List Char → Bool → UInt32 × Bool) (mem : UInt32 → Nat → UInt32)
        (ti : Nat → Token) (fuel : Nat) (p q : Int) (s : Bool) (v : UInt32) (s' : Bool),
      (∀ i : Int, p ≤ i → i ≤ q → (ti i.toNat).type ≠ TK_REGISTER) →
      (∀ i : Int, p ≤ i → i ≤ q → 0 ≤ (ti i.toNat).precedence) →
      eval reg mem ti fuel p q s = EvalResult.ok v s' → s' = s ∨ s' = false) ∧
    (∀ (reg : List Char → Bool → UInt32 × Bool) (mem : UInt32 → Nat → UInt32)
        (e : List Char) (st0 : Nat → Token) (s : Bool) (v : UInt32) (s' : Bool),
      (make_token e st0).1 = none →
      (∀ i : Nat, i < (make_token e st0).2.2 →
        ((make_token e st0).2.1 i).type ≠ TK_REGISTER) →
      (expr reg mem e st0 s).1 = EvalResult.ok v s' → s' = s ∨ s' = false) := by
  constructor
  · exact fun reg mem ti fuel p q s v s' hreg hpr h => eval_flag reg mem ti fuel p q s v s' hreg hpr h
  · intro reg mem e st0 s v s' h1 h2 h3
    have hmk : make_token e st0 = (none, (make_token e st0).2.1, (make_token e st0).2.2) := by
      rw [← h1]
    unfold expr at h3
    rw [hmk] at h3
    refine eval_flag reg mem (disamb (make_token e st0).2.1 (make_token e st0).2.2)
      ((make_token e st0).2.2 + 2) 0 (((make_token e st0).2.2 : Int) - 1) s v s' ?_ ?_ h3
    · intro i hi1 hi2
      have hlt : i.toNat < (make_token e st0).2.2 := by omega
      rw [disamb_char ((make_token e st0).2.1) ((make_token e st0).2.2) i.toNat hlt]
      split_ifs with hA hB
      · show TK_DEREFERENCE ≠ TK_REGISTER
        decide
      · show TK_MINUS ≠ TK_REGISTER
        decide
      · exact h2 i.toNat hlt
    · intro i hi1 hi2
      have hlt : i.toNat < (make_token e st0).2.2 := by omega
      rw [disamb_char ((make_token e st0).2.1) ((make_token e st0).2.2) i.toNat hlt]
      split_ifs with hA hB
      · show (0 : Int) ≤ OP_LV2_2
        decide
      · show (0 : Int) ≤ OP_LV2_1
        decide
      · exact make_token_prec e st0 i.toNat hlt

/-- C10, witness: on `"1+2"` (no register token) with incoming flag
`true`, the successful evaluation leaves the flag at the caller's
value. -/
theorem c10_witness : true = true ∨ true = false :=
  c10_theorem.2 reg0 mem0 ("1+2".toList) zeroStore true 3 true rfl (by decide) (by decide)
